import Mathlib

/-!
Verification of the image-compression pipeline core of the `emage` repository
(`src/app/menu.js`, second module: the `Process` class and its engine-selector
helpers).  Pure helpers (`getPlugin`, the per-family engines,
`isLibjpegNotFound`) are translated directly; the stateful `Process` run is
embedded as explicit state passing over `ProcState`, with the outcome of each
external `imagemin` invocation supplied by an oracle `Nat → StepResult`
(indexed by the step's position, matching Bluebird's `Promise.map` with
`concurrency: 1`, which runs the mapper sequentially in list order and passes
`(value, index, arrayLength)`).
-/

/-- JavaScript regex `.test` on strings is substring search; character-level
substring test used to model `/pat/.test(s)` for patterns without
metacharacters. -/
def containsPat (pat s : List Char) : Bool :=
  (List.range (s.length + 1)).any (fun i => pat.isPrefixOf (s.drop i))

/-- String-level wrapper of `containsPat`. -/
def containsStr (pat s : String) : Bool :=
  containsPat pat.data s.data

/-- A JavaScript error value as observed by the pipeline: the optional `code`
property (`undefined` when absent) and the `message` string. -/
structure JsError where
  code : Option String
  message : String
deriving DecidableEq, Repr

/-- Characters matched by `.` in a JavaScript regex without the `s` flag:
everything except the four line terminators. -/
def isDotChar (c : Char) : Bool :=
  !(c == '\n' || c == '\r' || c == Char.ofNat 0x2028 || c == Char.ofNat 0x2029)

/-- The literal prefix of the libjpeg regex `/Library not loaded:.+libjpeg/`. -/
def libPat1 : List Char := "Library not loaded:".data

/-- The literal suffix of the libjpeg regex. -/
def libPat2 : List Char := "libjpeg".data

/-- The `EPIPE` pattern of `/EPIPE/.test(ex.code)`. -/
def epipePat : List Char := "EPIPE".data

/-- Matching of `/Library not loaded:.+libjpeg/` against a message: some
position starts with the literal prefix, followed by at least one
non-line-terminator character, followed by `libjpeg`. -/
def libjpegMsgMatch (s : List Char) : Bool :=
  (List.range (s.length + 1)).any (fun i =>
    libPat1.isPrefixOf (s.drop i) &&
    (List.range (((s.drop i).drop libPat1.length).length + 1)).any (fun k =>
      decide (1 ≤ k) &&
      (((s.drop i).drop libPat1.length).take k).all isDotChar &&
      libPat2.isPrefixOf (((s.drop i).drop libPat1.length).drop k)))

/-- `isLibjpegNotFound` from `menu.js`: `/EPIPE/.test(ex.code) ||
/Library not loaded:.+libjpeg/.test(ex.message)`.  When `ex.code` is
`undefined`, `/EPIPE/.test(undefined)` tests the string `"undefined"` and is
false. -/
def isLibjpegNotFound (ex : JsError) : Bool :=
  (match ex.code with
   | some c => containsPat epipePat c.data
   | none => false)
  || libjpegMsgMatch ex.message.data

/-- The user-actionable hint substituted for the original message. -/
def hintMessage : String := "You probably need to install \"libjpeg\" on your computer."

/-- The message recorded in `errors` for a failing step (`_compressImage`'s
catch handler): the hint exactly when the algorithm is `jpegoptim` and
`isLibjpegNotFound` matches, the error's own message otherwise. -/
def recordedMessage (algorithm : String) (ex : JsError) : String :=
  if algorithm == "jpegoptim" && isLibjpegNotFound ex then hintMessage
  else ex.message

/-- A configured compression operation, one constructor per imagemin plugin
invocation in `menu.js`, carrying the hardcoded tuning constants. -/
inductive Plugin where
  | jpegoptimP (progressive : Bool)
  | jpegtranP (progressive : Bool)
  | mozjpegP (quality : Nat)
  | advpngP (optimizationLevel : Nat)
  | optipngP
  | pngcrushP (reduce : Bool)
  | pngoutP
  | zopfliP (transparent : Bool)
  | svgoP
  | giflossyP (interlaced : Bool) (optimizationLevel : Nat) (optimize : Nat)
  | gifsicleP (interlaced : Bool) (optimizationLevel : Nat)
deriving DecidableEq, Repr

/-- `engineJpg` from `menu.js`; `null` becomes `none`. -/
def engineJpg (algorithm : String) : Option Plugin :=
  if algorithm = "jpegoptim" then some (.jpegoptimP false)
  else if algorithm = "jpegtran" then some (.jpegtranP true)
  else if algorithm = "mozjpeg" then some (.mozjpegP 90)
  else none

/-- `enginePng` from `menu.js`. -/
def enginePng (algorithm : String) : Option Plugin :=
  if algorithm = "advpng" then some (.advpngP 4)
  else if algorithm = "optipng" then some .optipngP
  else if algorithm = "pngcrush" then some (.pngcrushP true)
  else if algorithm = "pngout" then some .pngoutP
  else if algorithm = "zopfli" then some (.zopfliP true)
  else none

/-- `engineSvg` from `menu.js`. -/
def engineSvg (algorithm : String) : Option Plugin :=
  if algorithm = "svgo" then some .svgoP
  else none

/-- `engineGif` from `menu.js`. -/
def engineGif (algorithm : String) : Option Plugin :=
  if algorithm = "giflossy" then some (.giflossyP true 3 3)
  else if algorithm = "gifsicle" then some (.gifsicleP true 3)
  else none

/-- `getPlugin` from `menu.js`: regex dispatch on the media type, then the
per-family engine; `undefined` (no family matched) becomes `none`. -/
def getPlugin (fileType algorithm : String) : Option Plugin :=
  if containsStr "image/jpg" fileType || containsStr "image/jpeg" fileType then
    engineJpg algorithm
  else if containsStr "image/png" fileType then
    enginePng algorithm
  else if containsStr "image/svg" fileType || containsStr "image/svg+xml" fileType then
    engineSvg algorithm
  else if containsStr "image/gif" fileType then
    engineGif algorithm
  else none

/-- The four media families of the specification's table. -/
inductive Family where
  | jpeg
  | png
  | svg
  | gif
deriving DecidableEq, Repr

/-- Modelled from the spec's §4.1 table: the member algorithms of each
family. -/
def familyMembers : Family → List String
  | .jpeg => ["jpegoptim", "jpegtran", "mozjpeg"]
  | .png => ["advpng", "optipng", "pngcrush", "pngout", "zopfli"]
  | .svg => ["svgo"]
  | .gif => ["giflossy", "gifsicle"]

/-- The family selected by `getPlugin`'s pattern cascade for a media type
string, `none` when no pattern matches. -/
def familyOf (fileType : String) : Option Family :=
  if containsStr "image/jpg" fileType || containsStr "image/jpeg" fileType then some .jpeg
  else if containsStr "image/png" fileType then some .png
  else if containsStr "image/svg" fileType || containsStr "image/svg+xml" fileType then some .svg
  else if containsStr "image/gif" fileType then some .gif
  else none

/-- Modelled from the spec: whether the selector should return an operation,
per the spec's family/member table. -/
def pluginExpected (fileType algorithm : String) : Bool :=
  match familyOf fileType with
  | some f => (familyMembers f).contains algorithm
  | none => false

/-- The image descriptor fields the run logic reads: `file.size` and
`file.type` (paths only feed the external calls, which the oracle absorbs). -/
structure FileDesc where
  size : Nat
  type : String
deriving DecidableEq, Repr

/-- Outcome of one external `imagemin` + `fs.statSync` invocation: either the
promise chain resolves and the re-measured byte size is `n`, or it rejects
with a JavaScript error (this also covers the `null`-plugin and
invalid-file-name paths, which reject through the same catch). -/
inductive StepResult where
  | success (measuredSize : Nat)
  | failure (ex : JsError)
deriving DecidableEq, Repr

/-- `true` on the rejection outcome. -/
def StepResult.isFailureB : StepResult → Bool
  | .success _ => false
  | .failure _ => true

/-- The `{ algorithm, index, length }` record stored in
`this.currentAlgorithm`. -/
structure CurrentAlg where
  algorithm : String
  index : Nat
  length : Nat
deriving DecidableEq, Repr

/-- An `{ algorithm, message }` record of the `errors` list. -/
structure ErrRec where
  algorithm : String
  message : String
deriving DecidableEq, Repr

/-- The mutable fields of a `Process` instance. -/
structure ProcState where
  originalSize : Nat
  size : Nat
  algorithms : List String
  currentAlgorithm : Option CurrentAlg
  finishedAlgorithms : List String
  finished : Bool
  failed : Bool
  errors : List ErrRec
deriving DecidableEq, Repr, Inhabited

/-- The events a `Process` emits. -/
inductive Event where
  | start (cur : CurrentAlg)
  | stepEnd (cur : CurrentAlg) (size : Nat)
  | doneEv (size : Nat)
  | failedEv (ex : JsError)
  | finishEv
deriving DecidableEq, Repr

/-- `_compressImage`: on resolution the measured size is returned and the
state is untouched; on rejection one `{ algorithm, message }` record (with
the possibly rewritten message) is appended to `errors`, `_failed` sets the
sticky flag and emits `failed` with the underlying error, and the current
`this.size` is returned. -/
def compressImage (alg : String) (r : StepResult) (s : ProcState) :
    Nat × ProcState × List Event :=
  match r with
  | .success n => (n, s, [])
  | .failure ex =>
      (s.size,
       { s with
          errors := s.errors ++ [{ algorithm := alg, message := recordedMessage alg ex }],
          failed := true },
       [Event.failedEv ex])

/-- `_createJob`: set `currentAlgorithm`, emit `start`, run `_compressImage`,
append to `finishedAlgorithms` when the returned size differs from the
pre-step `this.size`, assign `this.size = newSize`, emit `end`. -/
def createJob (alg : String) (idx len : Nat) (r : StepResult) (s : ProcState) :
    ProcState × List Event :=
  let cur : CurrentAlg := { algorithm := alg, index := idx, length := len }
  let s1 : ProcState := { s with currentAlgorithm := some cur }
  let res := compressImage alg r s1
  let s2 := res.2.1
  let s3 :=
    if s2.size ≠ res.1 then
      { s2 with finishedAlgorithms := s2.finishedAlgorithms ++ [alg] }
    else s2
  (({ s3 with size := res.1 }),
   Event.start cur :: (res.2.2 ++ [Event.stepEnd cur res.1]))

/-- The sequential job loop of `Promise.map(algorithms, this._createJob,
{ concurrency: 1 })`: steps run one at a time in list order, the mapper
receiving the algorithm, its index and the array length.  Returns the final
state, the emitted events, and the state after each step. -/
def runJobs (o : Nat → StepResult) (len : Nat) :
    Nat → List String → ProcState → ProcState × List Event × List ProcState
  | _, [], s => (s, [], [])
  | i, a :: rest, s =>
      let step := createJob a i len (o i) s
      let tail := runJobs o len (i + 1) rest step.1
      (tail.1, step.2 ++ tail.2.1, step.1 :: tail.2.2)

/-- The state built by the `Process` constructor before the job chain runs. -/
def initState (f : FileDesc) (algs : List String) : ProcState :=
  { originalSize := f.size
    size := f.size
    algorithms := algs
    currentAlgorithm := none
    finishedAlgorithms := []
    finished := false
    failed := false
    errors := [] }

/-- A whole run: the constructor's job chain `Promise.map(...).then(this._done)
.catch(this._error).finally(this._finish)`.  `_createJob` never rejects (its
`_compressImage` absorbs every step error), so the chain resolves, `_done`
emits `done` with the final size, and `_finish` sets `finished` and emits
`finish`. -/
def runProcess (f : FileDesc) (algs : List String) (o : Nat → StepResult) :
    ProcState × List Event :=
  let s0 := initState f algs
  let r := runJobs o algs.length 0 algs s0
  ({ r.1 with finished := true },
   r.2.1 ++ [Event.doneEv r.1.size, Event.finishEv])

/-- The state trajectory of a run: the constructor state followed by the state
after each step (the terminal `finished := true` write is the final state of
`runProcess`). -/
def runTrace (f : FileDesc) (algs : List String) (o : Nat → StepResult) :
    List ProcState :=
  initState f algs :: (runJobs o algs.length 0 algs (initState f algs)).2.2

/-- The sizes along the trajectory: `this.size` before any step and after each
step. -/
def sizeTrace (f : FileDesc) (algs : List String) (o : Nat → StepResult) :
    List Nat :=
  (runTrace f algs o).map ProcState.size

/-- The size after a step: the measured size on success, the pre-step size on
failure. -/
lemma createJob_size (alg : String) (idx len : Nat) (r : StepResult) (s : ProcState) :
    (createJob alg idx len r s).1.size =
      match r with
      | .success n => n
      | .failure _ => s.size := by
  cases r <;> simp [createJob, compressImage]

/-- The errors after a step: unchanged on success, one record appended on
failure. -/
lemma createJob_errors (alg : String) (idx len : Nat) (r : StepResult) (s : ProcState) :
    (createJob alg idx len r s).1.errors =
      match r with
      | .success _ => s.errors
      | .failure ex => s.errors ++ [{ algorithm := alg, message := recordedMessage alg ex }] := by
  cases r <;> · simp only [createJob, compressImage]; split <;> rfl

/-- The failed flag after a step. -/
lemma createJob_failed (alg : String) (idx len : Nat) (r : StepResult) (s : ProcState) :
    (createJob alg idx len r s).1.failed = (s.failed || r.isFailureB) := by
  cases r <;> (simp only [createJob, compressImage, StepResult.isFailureB]; split <;> simp)

/-- The finished flag is never touched by a step. -/
lemma createJob_finished (alg : String) (idx len : Nat) (r : StepResult) (s : ProcState) :
    (createJob alg idx len r s).1.finished = s.finished := by
  cases r <;> · simp only [createJob, compressImage]; split <;> rfl

/-- The completed list after a step: the algorithm is appended exactly when
the step succeeded with a measured size different from the pre-step size. -/
lemma createJob_finishedAlgorithms (alg : String) (idx len : Nat) (r : StepResult)
    (s : ProcState) :
    (createJob alg idx len r s).1.finishedAlgorithms =
      s.finishedAlgorithms ++
        match r with
        | .success n => if s.size ≠ n then [alg] else []
        | .failure _ => [] := by
  cases r with
  | success n =>
      simp only [createJob, compressImage]
      split <;> simp_all
  | failure ex =>
      simp only [createJob, compressImage]
      split <;> simp_all

/-- The current-algorithm record after a step. -/
lemma createJob_currentAlgorithm (alg : String) (idx len : Nat) (r : StepResult)
    (s : ProcState) :
    (createJob alg idx len r s).1.currentAlgorithm =
      some { algorithm := alg, index := idx, length := len } := by
  cases r <;> · simp only [createJob, compressImage]; split <;> rfl

/-- The events of one step: `start`, then `failed` with the underlying error
exactly on a failing step, then `end` with the post-step size. -/
lemma createJob_events (alg : String) (idx len : Nat) (r : StepResult) (s : ProcState) :
    (createJob alg idx len r s).2 =
      Event.start { algorithm := alg, index := idx, length := len } ::
        (match r with
         | .success _ => []
         | .failure ex => [Event.failedEv ex]) ++
        [Event.stepEnd { algorithm := alg, index := idx, length := len }
          ((createJob alg idx len r s).1.size)] := by
  cases r <;> simp [createJob, compressImage]

/-- One state per step is recorded in the trajectory. -/
lemma runJobs_states_length (o : Nat → StepResult) (len : Nat) :
    ∀ (l : List String) (i : Nat) (s : ProcState),
      (runJobs o len i l s).2.2.length = l.length := by
  intro l
  induction l with
  | nil => intro i s; rfl
  | cons a rest ih => intro i s; simp [runJobs, ih]

/-- Positional characterization of the trajectory: the state after step `j`
is `createJob` applied to the state before step `j`. -/
lemma runJobs_trace_get (o : Nat → StepResult) (len : Nat) :
    ∀ (l : List String) (i : Nat) (s : ProcState) (j : Nat) (a : String),
      l[j]? = some a →
      (s :: (runJobs o len i l s).2.2)[j + 1]? =
        some (createJob a (i + j) len (o (i + j))
          ((s :: (runJobs o len i l s).2.2).getD j default)).1 := by
  intro l
  induction l with
  | nil => intro i s j a h; simp at h
  | cons b rest ih =>
      intro i s j a h
      cases j with
      | zero =>
          simp only [List.getElem?_cons_zero, Option.some.injEq] at h
          subst h
          simp [runJobs]
      | succ k =>
          simp only [List.getElem?_cons_succ] at h
          have := ih (i + 1) (createJob b i len (o i) s).1 k a h
          simpa [runJobs, Nat.add_assoc, Nat.add_comm 1 k] using this

/-- The trajectory has one entry per step plus the initial state. -/
lemma runTrace_length (f : FileDesc) (algs : List String) (o : Nat → StepResult) :
    (runTrace f algs o).length = algs.length + 1 := by
  simp [runTrace, runJobs_states_length]

/-- Positional form of the trajectory at the run's top level. -/
lemma runTrace_succ (f : FileDesc) (algs : List String) (o : Nat → StepResult)
    (j : Nat) (a : String) (h : algs[j]? = some a) :
    (runTrace f algs o).getD (j + 1) default =
      (createJob a j algs.length (o j) ((runTrace f algs o).getD j default)).1 := by
  have hg := runJobs_trace_get o algs.length algs 0 (initState f algs) j a h
  simp only [Nat.zero_add] at hg
  simp [runTrace, List.getD_eq_getElem?_getD, hg]

/-- Bridge between the size trajectory and the state trajectory. -/
lemma sizeTrace_getD (f : FileDesc) (algs : List String) (o : Nat → StepResult)
    (j : Nat) (hj : j < algs.length + 1) :
    (sizeTrace f algs o).getD j 0 = ((runTrace f algs o).getD j default).size := by
  have hlen : j < (runTrace f algs o).length := by rw [runTrace_length]; exact hj
  simp [sizeTrace, List.getD_eq_getElem?_getD, List.getElem?_eq_getElem hlen]

/-- Boolean check that a list of naturals never increases from one entry to
the next. -/
def nonIncr : List Nat → Bool
  | [] => true
  | [_] => true
  | a :: b :: rest => decide (b ≤ a) && nonIncr (b :: rest)

/-- `nonIncr` holds exactly when each entry bounds the next. -/
lemma nonIncr_iff (l : List Nat) :
    nonIncr l = true ↔ ∀ i, i + 1 < l.length → l.getD (i + 1) 0 ≤ l.getD i 0 := by
  induction l with
  | nil => simp [nonIncr]
  | cons a l ih =>
      cases l with
      | nil => simp [nonIncr]
      | cons b rest =>
          rw [show nonIncr (a :: b :: rest) = (decide (b ≤ a) && nonIncr (b :: rest)) from rfl]
          rw [Bool.and_eq_true, decide_eq_true_eq, ih]
          constructor
          · rintro ⟨hba, hrest⟩ i hi
            cases i with
            | zero => simpa using hba
            | succ k =>
                have := hrest k (by simp at hi ⊢; omega)
                simpa using this
          · intro h
            refine ⟨by simpa using h 0 (by simp), ?_⟩
            intro i hi
            have := h (i + 1) (by simp at hi ⊢; omega)
            simpa using this

/-- In a never-increasing list every entry is bounded by the head. -/
lemma nonIncr_le_head : ∀ (l : List Nat) (x : Nat), nonIncr (x :: l) = true →
    ∀ y ∈ x :: l, y ≤ x := by
  intro l
  induction l with
  | nil => intro x _ y hy; simp at hy; omega
  | cons b rest ih =>
      intro x hx y hy
      rw [show nonIncr (x :: b :: rest) = (decide (b ≤ x) && nonIncr (b :: rest)) from rfl,
        Bool.and_eq_true, decide_eq_true_eq] at hx
      rcases List.mem_cons.mp hy with rfl | hy'
      · exact Nat.le_refl _
      · exact Nat.le_trans (ih b hx.2 y hy') hx.1

/-- Contract check on one oracle outcome: a resolving step must not report a
size above the given pre-step size; failing steps are unconstrained. -/
def stepOk : StepResult → Nat → Bool
  | .success n, pre => decide (n ≤ pre)
  | .failure _, _ => true

/-- The size recurrence of the run: after step `j` the size is the measured
size on success and the previous size on failure. -/
lemma sizeTrace_step (f : FileDesc) (algs : List String) (o : Nat → StepResult)
    (j : Nat) (hj : j < algs.length) :
    (sizeTrace f algs o).getD (j + 1) 0 =
      match o j with
      | .success n => n
      | .failure _ => (sizeTrace f algs o).getD j 0 := by
  have ha : algs[j]? = some algs[j] := List.getElem?_eq_getElem hj
  have h1 := runTrace_succ f algs o j algs[j] ha
  have h2 := sizeTrace_getD f algs o (j + 1) (by omega)
  have h3 := sizeTrace_getD f algs o j (by omega)
  rw [h2, h1, createJob_size]
  cases o j with
  | success n => rfl
  | failure ex => exact h3.symm

/-- C1 counterexample: the code assigns `this.size = newSize` without any
comparison, so a run whose single step resolves with a measured size larger
than the original (nothing in `_compressImage` prevents a plugin from writing
a bigger file) ends with `currentSizeBytes > originalSizeBytes`, refuting the
claimed invariant over all runs. -/
theorem c1_counterexample :
    (runProcess { size := 10, type := "image/png" } ["optipng"]
        (fun _ => StepResult.success 15)).1.originalSize <
      (runProcess { size := 10, type := "image/png" } ["optipng"]
        (fun _ => StepResult.success 15)).1.size := by
  decide

/-- C1 (amended): provided every resolving step reports a measured size no
larger than the size recorded before that step, `currentSizeBytes` starts
equal to `originalSizeBytes`, never increases from one step to the next,
stays at most `originalSizeBytes` after every step, and a failed step leaves
it unchanged. -/
theorem c1_amended (f : FileDesc) (algs : List String) (o : Nat → StepResult)
    (h : ∀ i, i < algs.length → stepOk (o i) ((sizeTrace f algs o).getD i 0) = true) :
    (sizeTrace f algs o).head? = some f.size ∧
    nonIncr (sizeTrace f algs o) = true ∧
    (sizeTrace f algs o).all (fun n => decide (n ≤ f.size)) = true ∧
    ((List.range algs.length).all (fun i =>
      !(o i).isFailureB ||
        ((sizeTrace f algs o).getD (i + 1) 0 == (sizeTrace f algs o).getD i 0))) = true := by
  have hlen : (sizeTrace f algs o).length = algs.length + 1 := by
    simp [sizeTrace, runTrace_length]
  have mono : ∀ j, j < algs.length →
      (sizeTrace f algs o).getD (j + 1) 0 ≤ (sizeTrace f algs o).getD j 0 := by
    intro j hj
    have hk := sizeTrace_step f algs o j hj
    have hh := h j hj
    cases ho : o j with
    | success n =>
        rw [ho] at hk hh
        rw [hk]
        simpa [stepOk] using hh
    | failure ex =>
        rw [ho] at hk
        rw [hk]
  have hcons : sizeTrace f algs o =
      f.size :: ((runJobs o algs.length 0 algs (initState f algs)).2.2.map ProcState.size) := by
    simp [sizeTrace, runTrace, initState]
  have hni : nonIncr (sizeTrace f algs o) = true := by
    rw [nonIncr_iff]
    intro i hi
    exact mono i (by omega)
  refine ⟨by rw [hcons]; rfl, hni, ?_, ?_⟩
  · rw [List.all_eq_true]
    intro n hn
    rw [hcons] at hni hn
    simpa using nonIncr_le_head _ _ hni n hn
  · rw [List.all_eq_true]
    intro i hi
    rw [List.mem_range] at hi
    cases ho : o i with
    | success n => simp [StepResult.isFailureB, ho]
    | failure ex =>
        have hk := sizeTrace_step f algs o i hi
        rw [ho] at hk
        have hk' : (sizeTrace f algs o).getD (i + 1) 0 = (sizeTrace f algs o).getD i 0 := hk
        simp only [ho, StepResult.isFailureB, Bool.not_true, Bool.false_or, hk',
          beq_self_eq_true]

/-- C1 witness: a two-step run shrinking 10 to 8 under an oracle satisfying
the contract hypothesis. -/
theorem c1_witness :
    (sizeTrace { size := 10, type := "image/png" } ["optipng", "mozjpeg"]
        (fun _ => StepResult.success 8)).head? = some 10 ∧
    nonIncr (sizeTrace { size := 10, type := "image/png" } ["optipng", "mozjpeg"]
        (fun _ => StepResult.success 8)) = true ∧
    ((sizeTrace { size := 10, type := "image/png" } ["optipng", "mozjpeg"]
        (fun _ => StepResult.success 8)).all (fun n => decide (n ≤ 10))) = true ∧
    ((List.range (["optipng", "mozjpeg"] : List String).length).all (fun i =>
      !((fun _ => StepResult.success 8) i).isFailureB ||
        ((sizeTrace { size := 10, type := "image/png" } ["optipng", "mozjpeg"]
            (fun _ => StepResult.success 8)).getD (i + 1) 0 ==
          (sizeTrace { size := 10, type := "image/png" } ["optipng", "mozjpeg"]
            (fun _ => StepResult.success 8)).getD i 0))) = true :=
  c1_amended { size := 10, type := "image/png" } ["optipng", "mozjpeg"]
    (fun _ => StepResult.success 8) (by decide)

/-- C7: a run over the empty algorithm list performs no step, emits exactly
`done` (with the unchanged size) followed by `finish`, keeps
`currentSizeBytes` equal to `originalSizeBytes`, and records no error. -/
theorem c7_empty_run (f : FileDesc) (o : Nat → StepResult) :
    (runProcess f [] o).2 = [Event.doneEv f.size, Event.finishEv] ∧
    (runProcess f [] o).1.size = f.size ∧
    (runProcess f [] o).1.size = (runProcess f [] o).1.originalSize ∧
    (runProcess f [] o).1.errors = [] ∧
    (runProcess f [] o).1.finished = true := by
  refine ⟨rfl, rfl, rfl, rfl, rfl⟩

/-- The names accumulated in `finishedAlgorithms` along a job list, given the
running size: an algorithm is kept exactly when its step resolves with a
measured size different from the size recorded before the step. -/
def recordedList (o : Nat → StepResult) : Nat → List String → Nat → List String
  | _, [], _ => []
  | i, a :: rest, size =>
      match o i with
      | .success n => (if size ≠ n then [a] else []) ++ recordedList o (i + 1) rest n
      | .failure _ => recordedList o (i + 1) rest size

/-- The job loop accumulates exactly `recordedList`. -/
lemma runJobs_finishedAlgorithms (o : Nat → StepResult) (len : Nat) :
    ∀ (l : List String) (i : Nat) (s : ProcState),
      (runJobs o len i l s).1.finishedAlgorithms =
        s.finishedAlgorithms ++ recordedList o i l s.size := by
  intro l
  induction l with
  | nil => intro i s; simp [runJobs, recordedList]
  | cons a rest ih =>
      intro i s
      simp only [runJobs]
      rw [ih, createJob_finishedAlgorithms, createJob_size]
      cases ho : o i with
      | success n => simp [recordedList, ho, List.append_assoc]
      | failure ex => simp [recordedList, ho]

/-- What `recordedList` keeps is an order-preserving subsequence of the job
list. -/
lemma recordedList_sublist (o : Nat → StepResult) :
    ∀ (l : List String) (i : Nat) (size : Nat),
      List.Sublist (recordedList o i l size) l := by
  intro l
  induction l with
  | nil => intro i size; simp [recordedList]
  | cons a rest ih =>
      intro i size
      cases ho : o i with
      | success n =>
          simp only [recordedList, ho]
          split
          · simpa using List.Sublist.cons₂ a (ih (i + 1) n)
          · exact List.Sublist.cons a (ih (i + 1) n)
      | failure ex =>
          simp only [recordedList, ho]
          exact List.Sublist.cons a (ih (i + 1) size)

/-- C2 counterexample: a single step resolving with a *larger* measured size
is still appended to `finishedAlgorithms` (the code tests `!==`, not `<`), so
an algorithm that produced no byte reduction is recorded, refuting the
claimed "actually reduced" characterization. -/
theorem c2_counterexample :
    (runProcess { size := 20, type := "image/png" } ["optipng"]
        (fun _ => StepResult.success 21)).1.finishedAlgorithms = ["optipng"] ∧
    (runProcess { size := 20, type := "image/png" } ["optipng"]
        (fun _ => StepResult.success 21)).1.originalSize <
      (runProcess { size := 20, type := "image/png" } ["optipng"]
        (fun _ => StepResult.success 21)).1.size := by
  decide

/-- C2 (amended): an algorithm is recorded in `finishedAlgorithms` exactly
when its step ran successfully and the re-measured size *differed* from the
size recorded before the step (in either direction); the recorded names form
an order-preserving subsequence of the requested list. -/
theorem c2_amended (f : FileDesc) (algs : List String) (o : Nat → StepResult) :
    (runProcess f algs o).1.finishedAlgorithms = recordedList o 0 algs f.size ∧
    List.Sublist ((runProcess f algs o).1.finishedAlgorithms) algs := by
  have h1 : (runProcess f algs o).1.finishedAlgorithms =
      (runJobs o algs.length 0 algs (initState f algs)).1.finishedAlgorithms := rfl
  have h2 : (runProcess f algs o).1.finishedAlgorithms = recordedList o 0 algs f.size := by
    rw [h1, runJobs_finishedAlgorithms]
    simp [initState]
  refine ⟨h2, ?_⟩
  rw [h2]
  exact recordedList_sublist o algs 0 f.size

/-- Whether an `end` event for the given step record occurs (with any size). -/
def hasStepEnd (evs : List Event) (c : CurrentAlg) : Bool :=
  evs.any (fun e =>
    match e with
    | .stepEnd c' _ => c' == c
    | _ => false)

/-- The run's event list, unfolded. -/
lemma runProcess_events (f : FileDesc) (algs : List String) (o : Nat → StepResult) :
    (runProcess f algs o).2 =
      (runJobs o algs.length 0 algs (initState f algs)).2.1 ++
        [Event.doneEv ((runJobs o algs.length 0 algs (initState f algs)).1.size),
         Event.finishEv] := rfl

/-- The run's final state, unfolded. -/
lemma runProcess_state (f : FileDesc) (algs : List String) (o : Nat → StepResult) :
    (runProcess f algs o).1 =
      { (runJobs o algs.length 0 algs (initState f algs)).1 with finished := true } := rfl

/-- Every step of the job list emits its `start` event and its `end` event,
whatever the outcomes of any step. -/
lemma runJobs_events_mem (o : Nat → StepResult) (len : Nat) :
    ∀ (l : List String) (i : Nat) (s : ProcState) (j : Nat) (b : String),
      l[j]? = some b →
      Event.start { algorithm := b, index := i + j, length := len } ∈
          (runJobs o len i l s).2.1 ∧
      hasStepEnd (runJobs o len i l s).2.1
          { algorithm := b, index := i + j, length := len } = true := by
  intro l
  induction l with
  | nil => intro i s j b h; simp at h
  | cons a rest ih =>
      intro i s j b h
      cases j with
      | zero =>
          simp only [List.getElem?_cons_zero, Option.some.injEq] at h
          subst h
          constructor
          · simp [runJobs, createJob_events]
          · simp [runJobs, hasStepEnd, createJob_events]
      | succ k =>
          simp only [List.getElem?_cons_succ] at h
          have hk := ih (i + 1) (createJob a i len (o i) s).1 k b h
          have harith : i + 1 + k = i + (k + 1) := by omega
          rw [harith] at hk
          constructor
          · simp only [runJobs, List.mem_append]
            exact Or.inr hk.1
          · simp only [runJobs, hasStepEnd, List.any_append, Bool.or_eq_true]
            exact Or.inr hk.2

/-- The job loop never emits `finish`. -/
lemma runJobs_count_finish (o : Nat → StepResult) (len : Nat) :
    ∀ (l : List String) (i : Nat) (s : ProcState),
      (runJobs o len i l s).2.1.count Event.finishEv = 0 := by
  intro l
  induction l with
  | nil => intro i s; rfl
  | cons a rest ih =>
      intro i s
      simp only [runJobs, List.count_append, ih, Nat.add_zero, createJob_events]
      cases o i <;> simp [List.count_cons, List.count_append]

/-- Steps never touch the finished flag of the trajectory. -/
lemma runJobs_states_finished (o : Nat → StepResult) (len : Nat) :
    ∀ (l : List String) (i : Nat) (s : ProcState) (st : ProcState),
      st ∈ (runJobs o len i l s).2.2 → st.finished = s.finished := by
  intro l
  induction l with
  | nil => intro i s st h; simp [runJobs] at h
  | cons a rest ih =>
      intro i s st h
      simp only [runJobs, List.mem_cons] at h
      rcases h with rfl | h
      · exact createJob_finished a i len (o i) s
      · rw [ih (i + 1) (createJob a i len (o i) s).1 st h]
        exact createJob_finished a i len (o i) s

/-- C3: a failing step appends exactly one `{algorithm, message}` record to
`errors` and leaves the size unchanged, every algorithm of the list still
emits its `start` and `end` events, and the run still terminates normally
with a final `finish` event (no exception escapes the job chain). -/
theorem c3_failure_isolation (f : FileDesc) (algs : List String) (o : Nat → StepResult)
    (i j : Nat) (a b : String) (ex : JsError)
    (hi : algs[i]? = some a) (ho : o i = .failure ex) (hj : algs[j]? = some b) :
    ((runTrace f algs o).getD (i + 1) default).errors =
      ((runTrace f algs o).getD i default).errors ++
        [{ algorithm := a, message := recordedMessage a ex }] ∧
    ((runTrace f algs o).getD (i + 1) default).size =
      ((runTrace f algs o).getD i default).size ∧
    Event.start { algorithm := b, index := j, length := algs.length } ∈
      (runProcess f algs o).2 ∧
    hasStepEnd (runProcess f algs o).2
      { algorithm := b, index := j, length := algs.length } = true ∧
    (runProcess f algs o).2.getLast? = some Event.finishEv := by
  have ht := runTrace_succ f algs o i a hi
  have hm := runJobs_events_mem o algs.length algs 0 (initState f algs) j b hj
  simp only [Nat.zero_add] at hm
  refine ⟨?_, ?_, ?_, ?_, ?_⟩
  · rw [ht, createJob_errors, ho]
  · rw [ht, createJob_size, ho]
  · rw [runProcess_events]
    exact List.mem_append_left _ hm.1
  · rw [runProcess_events]
    simp only [hasStepEnd, List.any_append, Bool.or_eq_true]
    exact Or.inl hm.2
  · rw [runProcess_events,
      show (runJobs o algs.length 0 algs (initState f algs)).2.1 ++
          [Event.doneEv ((runJobs o algs.length 0 algs (initState f algs)).1.size),
           Event.finishEv] =
        ((runJobs o algs.length 0 algs (initState f algs)).2.1 ++
          [Event.doneEv ((runJobs o algs.length 0 algs (initState f algs)).1.size)]) ++
          [Event.finishEv] by simp]
    exact List.getLast?_concat _

/-- C3 witness: two JPEG steps, the first failing, the second shrinking the
file. -/
theorem c3_witness :
    ((runTrace { size := 10, type := "image/jpeg" } ["jpegoptim", "jpegtran"]
        (fun n => if n = 0 then StepResult.failure { code := none, message := "boom" }
                  else StepResult.success 8)).getD 1 default).errors =
      ((runTrace { size := 10, type := "image/jpeg" } ["jpegoptim", "jpegtran"]
        (fun n => if n = 0 then StepResult.failure { code := none, message := "boom" }
                  else StepResult.success 8)).getD 0 default).errors ++
        [{ algorithm := "jpegoptim",
           message := recordedMessage "jpegoptim" { code := none, message := "boom" } }] ∧
    ((runTrace { size := 10, type := "image/jpeg" } ["jpegoptim", "jpegtran"]
        (fun n => if n = 0 then StepResult.failure { code := none, message := "boom" }
                  else StepResult.success 8)).getD 1 default).size =
      ((runTrace { size := 10, type := "image/jpeg" } ["jpegoptim", "jpegtran"]
        (fun n => if n = 0 then StepResult.failure { code := none, message := "boom" }
                  else StepResult.success 8)).getD 0 default).size ∧
    Event.start { algorithm := "jpegtran", index := 1, length := 2 } ∈
      (runProcess { size := 10, type := "image/jpeg" } ["jpegoptim", "jpegtran"]
        (fun n => if n = 0 then StepResult.failure { code := none, message := "boom" }
                  else StepResult.success 8)).2 ∧
    hasStepEnd (runProcess { size := 10, type := "image/jpeg" } ["jpegoptim", "jpegtran"]
        (fun n => if n = 0 then StepResult.failure { code := none, message := "boom" }
                  else StepResult.success 8)).2
      { algorithm := "jpegtran", index := 1, length := 2 } = true ∧
    (runProcess { size := 10, type := "image/jpeg" } ["jpegoptim", "jpegtran"]
        (fun n => if n = 0 then StepResult.failure { code := none, message := "boom" }
                  else StepResult.success 8)).2.getLast? = some Event.finishEv :=
  c3_failure_isolation { size := 10, type := "image/jpeg" } ["jpegoptim", "jpegtran"]
    (fun n => if n = 0 then StepResult.failure { code := none, message := "boom" }
              else StepResult.success 8)
    0 1 "jpegoptim" "jpegtran" { code := none, message := "boom" }
    (by decide) (by decide) (by decide)

/-- C4: the `finish` event occurs exactly once per run and is the very last
event, directly after `done` (which carries the final size); the `finished`
flag is false in the initial state and after every step, and is set exactly
by the terminal transition; no event and no state follows it. -/
theorem c4_finish_exactly_once (f : FileDesc) (algs : List String) (o : Nat → StepResult) :
    (runProcess f algs o).2.count Event.finishEv = 1 ∧
    (runProcess f algs o).2.getLast? = some Event.finishEv ∧
    ((runProcess f algs o).2.dropLast).getLast? =
      some (Event.doneEv ((runProcess f algs o).1.size)) ∧
    (runProcess f algs o).1.finished = true ∧
    ((runTrace f algs o).all (fun st => st.finished == false)) = true := by
  refine ⟨?_, ?_, ?_, rfl, ?_⟩
  · rw [runProcess_events, List.count_append, runJobs_count_finish]
    rfl
  · rw [runProcess_events,
      show (runJobs o algs.length 0 algs (initState f algs)).2.1 ++
          [Event.doneEv ((runJobs o algs.length 0 algs (initState f algs)).1.size),
           Event.finishEv] =
        ((runJobs o algs.length 0 algs (initState f algs)).2.1 ++
          [Event.doneEv ((runJobs o algs.length 0 algs (initState f algs)).1.size)]) ++
          [Event.finishEv] by simp]
    exact List.getLast?_concat _
  · rw [runProcess_events,
      show (runJobs o algs.length 0 algs (initState f algs)).2.1 ++
          [Event.doneEv ((runJobs o algs.length 0 algs (initState f algs)).1.size),
           Event.finishEv] =
        ((runJobs o algs.length 0 algs (initState f algs)).2.1 ++
          [Event.doneEv ((runJobs o algs.length 0 algs (initState f algs)).1.size)]) ++
          [Event.finishEv] by simp,
      List.dropLast_concat]
    exact List.getLast?_concat _
  · rw [List.all_eq_true]
    intro st hst
    simp only [runTrace, List.mem_cons] at hst
    rcases hst with rfl | hst
    · rfl
    · have := runJobs_states_finished o algs.length algs 0 (initState f algs) st hst
      simp [this, initState]

/-- The underlying error carried by a `failed` event, if any. -/
def failedPayload : Event → Option JsError
  | .failedEv ex => some ex
  | _ => none

/-- The underlying errors of the failing steps of a job list, in step
order. -/
def failPayloads (o : Nat → StepResult) : Nat → List String → List JsError
  | _, [] => []
  | i, _ :: rest =>
      (match o i with
       | .failure ex => [ex]
       | .success _ => []) ++ failPayloads o (i + 1) rest

/-- The job loop emits one `failed` event per failing step, carrying exactly
that step's underlying error. -/
lemma runJobs_failedPayloads (o : Nat → StepResult) (len : Nat) :
    ∀ (l : List String) (i : Nat) (s : ProcState),
      (runJobs o len i l s).2.1.filterMap failedPayload = failPayloads o i l := by
  intro l
  induction l with
  | nil => intro i s; rfl
  | cons a rest ih =>
      intro i s
      simp only [runJobs, List.filterMap_append, ih]
      cases ho : o i <;>
        simp [createJob_events, ho, failedPayload, failPayloads]

/-- The failed flag after step `j` is the disjunction of the outcomes of the
steps up to and including `j` (together with the incoming flag). -/
lemma runJobs_failed_cum (o : Nat → StepResult) (len : Nat) :
    ∀ (l : List String) (i : Nat) (s : ProcState) (j : Nat), j < l.length →
      ((s :: (runJobs o len i l s).2.2).getD (j + 1) default).failed =
        (s.failed || (List.range (j + 1)).any (fun k => (o (i + k)).isFailureB)) := by
  intro l
  induction l with
  | nil => intro i s j h; simp at h
  | cons a rest ih =>
      intro i s j h
      cases j with
      | zero =>
          simp only [runJobs]
          rw [show ((s :: (createJob a i len (o i) s).1 ::
              (runJobs o len (i + 1) rest (createJob a i len (o i) s).1).2.2).getD 1
                default) = (createJob a i len (o i) s).1 from rfl]
          rw [createJob_failed]
          rw [show List.range 1 = [0] from rfl]
          simp
      | succ k =>
          have hk : k < rest.length := by simpa using h
          have hih := ih (i + 1) (createJob a i len (o i) s).1 k hk
          simp only [runJobs]
          rw [show ((s :: (createJob a i len (o i) s).1 ::
              (runJobs o len (i + 1) rest (createJob a i len (o i) s).1).2.2).getD
                (k + 1 + 1) default) =
              (((createJob a i len (o i) s).1 ::
                (runJobs o len (i + 1) rest (createJob a i len (o i) s).1).2.2).getD
                  (k + 1) default) from rfl]
          rw [hih, createJob_failed]
          rw [show List.range (k + 1 + 1) = 0 :: (List.range (k + 1)).map Nat.succ from
            List.range_succ_eq_map (k + 1)]
          simp only [List.any_cons, List.any_map, Nat.add_zero]
          have hfun : ((fun k => (o (i + k)).isFailureB) ∘ Nat.succ) =
              (fun x => (o (i + 1 + x)).isFailureB) := by
            funext m
            simp only [Function.comp_apply]
            rw [show i + Nat.succ m = i + 1 + m by omega]
          rw [hfun, Bool.or_assoc]

/-- C5 counterexample: a run with two failing steps emits two `failed`
events, not only one on the first failing step. -/
theorem c5_counterexample :
    ((runProcess { size := 10, type := "image/png" } ["optipng", "pngout"]
        (fun _ => StepResult.failure { code := none, message := "boom" })).2.filterMap
      failedPayload).length = 2 := by
  decide

/-- C5 (amended): a `failed` event carrying the underlying error is emitted
on *every* failing step (in particular on the first); the `failed` flag
starts false and after step `i` equals "some step up to `i` failed", so it
becomes true at the first failure and stays true. -/
theorem c5_amended (f : FileDesc) (algs : List String) (o : Nat → StepResult)
    (i : Nat) (hi : i < algs.length) :
    (runProcess f algs o).2.filterMap failedPayload = failPayloads o 0 algs ∧
    ((runTrace f algs o).getD 0 default).failed = false ∧
    ((runTrace f algs o).getD (i + 1) default).failed =
      ((List.range (i + 1)).any (fun k => (o k).isFailureB)) := by
  refine ⟨?_, rfl, ?_⟩
  · rw [runProcess_events, List.filterMap_append, runJobs_failedPayloads]
    simp [failedPayload]
  · have hc := runJobs_failed_cum o algs.length algs 0 (initState f algs) i hi
    simp only [Nat.zero_add] at hc
    rw [show runTrace f algs o = initState f algs ::
        (runJobs o algs.length 0 algs (initState f algs)).2.2 from rfl]
    rw [hc]
    simp [initState]

/-- C5 witness: both steps fail; the flag is true after the second step as
well. -/
theorem c5_witness :
    (runProcess { size := 10, type := "image/gif" } ["giflossy", "gifsicle"]
        (fun _ => StepResult.failure { code := none, message := "boom" })).2.filterMap
      failedPayload =
      failPayloads (fun _ => StepResult.failure { code := none, message := "boom" }) 0
        ["giflossy", "gifsicle"] ∧
    ((runTrace { size := 10, type := "image/gif" } ["giflossy", "gifsicle"]
        (fun _ => StepResult.failure { code := none, message := "boom" })).getD 0
      default).failed = false ∧
    ((runTrace { size := 10, type := "image/gif" } ["giflossy", "gifsicle"]
        (fun _ => StepResult.failure { code := none, message := "boom" })).getD 2
      default).failed =
      ((List.range 2).any (fun k =>
        ((fun _ => StepResult.failure { code := none, message := "boom" }) k).isFailureB)) :=
  c5_amended { size := 10, type := "image/gif" } ["giflossy", "gifsicle"]
    (fun _ => StepResult.failure { code := none, message := "boom" }) 1 (by decide)

/-- `engineJpg` yields an operation exactly on the JPEG members of the spec
table. -/
lemma engineJpg_isSome (a : String) :
    (engineJpg a).isSome = (familyMembers Family.jpeg).contains a := by
  unfold engineJpg familyMembers
  split_ifs <;> simp_all

/-- `enginePng` yields an operation exactly on the PNG members of the spec
table. -/
lemma enginePng_isSome (a : String) :
    (enginePng a).isSome = (familyMembers Family.png).contains a := by
  unfold enginePng familyMembers
  split_ifs <;> simp_all

/-- `engineSvg` yields an operation exactly on the SVG members of the spec
table. -/
lemma engineSvg_isSome (a : String) :
    (engineSvg a).isSome = (familyMembers Family.svg).contains a := by
  unfold engineSvg familyMembers
  split_ifs <;> simp_all

/-- `engineGif` yields an operation exactly on the GIF members of the spec
table. -/
lemma engineGif_isSome (a : String) :
    (engineGif a).isSome = (familyMembers Family.gif).contains a := by
  unfold engineGif familyMembers
  split_ifs <;> simp_all

/-- C6: the selector returns an operation exactly when the media type
pattern-matches a family (per the code's substring cascade) and the
algorithm is a member of that family per the spec's table; in every other
combination it returns no operation; and `image/jpg` and `image/jpeg` select
exactly the same operations. -/
theorem c6_engine_selector (t a : String) :
    (getPlugin t a).isSome = pluginExpected t a ∧
    getPlugin "image/jpg" a = getPlugin "image/jpeg" a := by
  constructor
  · unfold getPlugin pluginExpected familyOf
    split_ifs <;>
      simp [engineJpg_isSome, enginePng_isSome, engineSvg_isSome, engineGif_isSome]
  · have h1 : (containsStr "image/jpg" "image/jpg" ||
        containsStr "image/jpeg" "image/jpg") = true := by decide
    have h2 : (containsStr "image/jpg" "image/jpeg" ||
        containsStr "image/jpeg" "image/jpeg") = true := by decide
    unfold getPlugin
    rw [h1, h2]
    simp

/-- `List.isPrefixOf` agrees with the existence of a completing suffix. -/
lemma isPrefixOf_eq_true_iff (p : List Char) :
    ∀ l : List Char, p.isPrefixOf l = true ↔ ∃ t, l = p ++ t := by
  induction p with
  | nil => intro l; simp [List.isPrefixOf]
  | cons a as ih =>
      intro l
      cases l with
      | nil => simp [List.isPrefixOf]
      | cons b bs =>
          simp only [List.isPrefixOf, Bool.and_eq_true, beq_iff_eq, ih]
          constructor
          · rintro ⟨rfl, t, rfl⟩
            exact ⟨t, rfl⟩
          · rintro ⟨t, h⟩
            injection h with h1 h2
            exact ⟨h1.symm, t, h2⟩

/-- `containsPat` agrees with the existence of a decomposition around the
pattern. -/
lemma containsPat_iff (pat s : List Char) :
    containsPat pat s = true ↔ ∃ pre post, s = pre ++ pat ++ post := by
  unfold containsPat
  rw [List.any_eq_true]
  constructor
  · rintro ⟨i, _, hpre⟩
    rw [isPrefixOf_eq_true_iff] at hpre
    obtain ⟨t, ht⟩ := hpre
    refine ⟨s.take i, t, ?_⟩
    calc s = s.take i ++ s.drop i := (List.take_append_drop i s).symm
    _ = s.take i ++ (pat ++ t) := by rw [ht]
    _ = s.take i ++ pat ++ t := (List.append_assoc _ _ _).symm
  · rintro ⟨pre, post, rfl⟩
    refine ⟨pre.length, ?_, ?_⟩
    · rw [List.mem_range]
      simp only [List.length_append]
      omega
    · rw [isPrefixOf_eq_true_iff]
      exact ⟨post, by rw [List.append_assoc, List.drop_left]⟩

/-- `libjpegMsgMatch` agrees with the existence of a decomposition
`pre ++ "Library not loaded:" ++ mid ++ "libjpeg" ++ post` with `mid` a
nonempty run of non-line-terminator characters. -/
lemma libjpegMsgMatch_iff (s : List Char) :
    libjpegMsgMatch s = true ↔
      ∃ pre mid post, s = pre ++ libPat1 ++ mid ++ libPat2 ++ post ∧
        mid ≠ [] ∧ mid.all isDotChar = true := by
  unfold libjpegMsgMatch
  rw [List.any_eq_true]
  constructor
  · rintro ⟨i, _, hcond⟩
    rw [Bool.and_eq_true] at hcond
    obtain ⟨hpre, hinner⟩ := hcond
    rw [isPrefixOf_eq_true_iff] at hpre
    obtain ⟨t, ht⟩ := hpre
    rw [List.any_eq_true] at hinner
    obtain ⟨k, _, hk⟩ := hinner
    rw [ht, List.drop_left] at hk
    rw [Bool.and_eq_true, Bool.and_eq_true] at hk
    obtain ⟨⟨hk1, hkall⟩, hkpre⟩ := hk
    rw [decide_eq_true_eq] at hk1
    rw [isPrefixOf_eq_true_iff] at hkpre
    obtain ⟨u, hu⟩ := hkpre
    have htne : t ≠ [] := by
      intro h0
      rw [h0] at hu
      simp [libPat2] at hu
    refine ⟨s.take i, t.take k, u, ?_, ?_, hkall⟩
    · calc s = s.take i ++ s.drop i := (List.take_append_drop i s).symm
      _ = s.take i ++ (libPat1 ++ t) := by rw [ht]
      _ = s.take i ++ (libPat1 ++ (t.take k ++ t.drop k)) := by rw [List.take_append_drop]
      _ = s.take i ++ (libPat1 ++ (t.take k ++ (libPat2 ++ u))) := by rw [hu]
      _ = s.take i ++ libPat1 ++ t.take k ++ libPat2 ++ u := by
            simp [List.append_assoc]
    · intro h0
      rw [List.take_eq_nil_iff] at h0
      rcases h0 with h0 | h0
      · omega
      · exact htne h0
  · rintro ⟨pre, mid, post, hs, hne, hall⟩
    have hs' : s = pre ++ (libPat1 ++ (mid ++ (libPat2 ++ post))) := by
      rw [hs]; simp [List.append_assoc]
    subst hs'
    refine ⟨pre.length, ?_, ?_⟩
    · rw [List.mem_range]
      simp only [List.length_append]
      omega
    · rw [Bool.and_eq_true]
      constructor
      · rw [isPrefixOf_eq_true_iff, List.drop_left]
        exact ⟨mid ++ (libPat2 ++ post), rfl⟩
      · rw [List.any_eq_true]
        refine ⟨mid.length, ?_, ?_⟩
        · rw [List.mem_range, List.drop_left, List.drop_left]
          simp only [List.length_append]
          omega
        · rw [List.drop_left, List.drop_left, Bool.and_eq_true, Bool.and_eq_true]
          refine ⟨⟨?_, ?_⟩, ?_⟩
          · rw [decide_eq_true_eq]
            have := List.length_pos.mpr hne
            omega
          · rw [List.take_left mid (libPat2 ++ post)]
            exact hall
          · rw [List.drop_left mid (libPat2 ++ post), isPrefixOf_eq_true_iff]
            exact ⟨post, rfl⟩

/-- Modelled from the spec: the "required native codec missing" signature —
an `EPIPE` code, or a message containing `Library not loaded:` followed (on
one line) by `libjpeg`. -/
def LibjpegSignature (ex : JsError) : Prop :=
  (∃ c pre post, ex.code = some c ∧ c.data = pre ++ epipePat ++ post) ∨
  (∃ pre mid post, ex.message.data = pre ++ libPat1 ++ mid ++ libPat2 ++ post ∧
    mid ≠ [] ∧ mid.all isDotChar = true)

/-- The code's `isLibjpegNotFound` decides exactly the spec's signature. -/
lemma isLibjpegNotFound_iff (ex : JsError) :
    isLibjpegNotFound ex = true ↔ LibjpegSignature ex := by
  unfold isLibjpegNotFound LibjpegSignature
  rw [Bool.or_eq_true, libjpegMsgMatch_iff]
  constructor
  · rintro (hc | hm)
    · left
      cases hco : ex.code with
      | none => rw [hco] at hc; simp at hc
      | some c =>
          rw [hco] at hc
          rw [containsPat_iff] at hc
          obtain ⟨pre, post, h⟩ := hc
          exact ⟨c, pre, post, rfl, h⟩
    · right; exact hm
  · rintro (⟨c, pre, post, hcode, hdata⟩ | hm)
    · left
      rw [hcode, containsPat_iff]
      exact ⟨pre, post, hdata⟩
    · right; exact hm

instance instDecidableLibjpegSignature (ex : JsError) : Decidable (LibjpegSignature ex) :=
  decidable_of_iff (isLibjpegNotFound ex = true) (isLibjpegNotFound_iff ex)

/-- C8: the message recorded for a failing step is the install-libjpeg hint
exactly when the failing algorithm is `jpegoptim` and the error matches the
library-not-found signature (an `EPIPE` code, or a message containing
`Library not loaded:` ... `libjpeg`); in every other failure the recorded
message is the underlying error's own message. -/
theorem c8_message_rewrite (alg : String) (ex : JsError) :
    recordedMessage alg ex =
      if alg = "jpegoptim" ∧ LibjpegSignature ex then hintMessage else ex.message := by
  have hiff := isLibjpegNotFound_iff ex
  by_cases h2 : LibjpegSignature ex
  · have hb : isLibjpegNotFound ex = true := hiff.mpr h2
    by_cases h1 : alg = "jpegoptim"
    · simp [recordedMessage, h1, hb, h2]
    · simp [recordedMessage, h1, hb, h2]
  · have hb : isLibjpegNotFound ex = false := by
      cases hbb : isLibjpegNotFound ex
      · rfl
      · exact absurd (hiff.mp hbb) h2
    simp [recordedMessage, hb, h2]

/-- Primitive JavaScript field values appearing in the spread record. -/
inductive JsPrim where
  | pstr (s : String)
  | pnum (n : Nat)
deriving DecidableEq, Repr

/-- A JavaScript value as returned by `getCurrentAlgorithm`: either `null` or
an object with named fields. -/
inductive JsValue where
  | jsNull
  | jsObject (fields : List (String × JsPrim))
deriving DecidableEq, Repr

/-- `getCurrentAlgorithm = () => ({ ...this.currentAlgorithm })`: spreading
`null` yields a fresh object with no fields (never `null`); spreading the
step record copies its three fields. -/
def spreadCurrent : Option CurrentAlg → JsValue
  | none => .jsObject []
  | some c =>
      .jsObject
        [("algorithm", .pstr c.algorithm), ("index", .pnum c.index),
         ("length", .pnum c.length)]

/-- The record held in `this.currentAlgorithm` once the job loop has run is
the last step's record. -/
lemma runJobs_currentAlgorithm (o : Nat → StepResult) (len : Nat) :
    ∀ (l : List String) (i : Nat) (s : ProcState) (a : String),
      l.getLast? = some a →
      (runJobs o len i l s).1.currentAlgorithm =
        some { algorithm := a, index := i + l.length - 1, length := len } := by
  intro l
  induction l with
  | nil => intro i s a h; simp at h
  | cons b rest ih =>
      intro i s a h
      cases rest with
      | nil =>
          simp only [List.getLast?_singleton, Option.some.injEq] at h
          subst h
          show (createJob b i len (o i) s).1.currentAlgorithm = _
          rw [createJob_currentAlgorithm]
          simp
      | cons c rest' =>
          have hlast : (c :: rest').getLast? = some a := by
            rw [← h, List.getLast?_cons_cons]
          have hih := ih (i + 1) (createJob b i len (o i) s).1 a hlast
          have harith : i + 1 + (c :: rest').length - 1 =
              i + (b :: c :: rest').length - 1 := by
            simp only [List.length_cons]
            omega
          rw [harith] at hih
          exact hih

/-- C10: before any step runs, `getCurrentAlgorithm` returns an empty object
(spreading the `null` field), not a null value; once the run has gone through
a nonempty list it returns the last step's `{algorithm, index, length}`
record. -/
theorem c10_current_algorithm (f : FileDesc) (algs : List String) (o : Nat → StepResult)
    (a : String) (h : algs.getLast? = some a) :
    spreadCurrent ((initState f algs).currentAlgorithm) = JsValue.jsObject [] ∧
    spreadCurrent ((initState f algs).currentAlgorithm) ≠ JsValue.jsNull ∧
    spreadCurrent ((runProcess f algs o).1.currentAlgorithm) =
      JsValue.jsObject
        [("algorithm", JsPrim.pstr a), ("index", JsPrim.pnum (algs.length - 1)),
         ("length", JsPrim.pnum algs.length)] := by
  refine ⟨rfl, by simp [spreadCurrent, initState], ?_⟩
  have hc := runJobs_currentAlgorithm o algs.length algs 0 (initState f algs) a h
  rw [runProcess_state,
    show ({ (runJobs o algs.length 0 algs (initState f algs)).1 with
        finished := true } : ProcState).currentAlgorithm =
      (runJobs o algs.length 0 algs (initState f algs)).1.currentAlgorithm from rfl,
    hc]
  simp only [Nat.zero_add]
  rfl

/-- C10 witness: a one-step SVG run. -/
theorem c10_witness :
    spreadCurrent ((initState { size := 10, type := "image/svg+xml" }
        ["svgo"]).currentAlgorithm) = JsValue.jsObject [] ∧
    spreadCurrent ((initState { size := 10, type := "image/svg+xml" }
        ["svgo"]).currentAlgorithm) ≠ JsValue.jsNull ∧
    spreadCurrent ((runProcess { size := 10, type := "image/svg+xml" } ["svgo"]
        (fun _ => StepResult.success 9)).1.currentAlgorithm) =
      JsValue.jsObject
        [("algorithm", JsPrim.pstr "svgo"), ("index", JsPrim.pnum 0),
         ("length", JsPrim.pnum 1)] :=
  c10_current_algorithm { size := 10, type := "image/svg+xml" } ["svgo"]
    (fun _ => StepResult.success 9) "svgo" (by decide)

/-- A tiny reference heap: arrays live in cells, a reference is a cell index.
Models JavaScript array identity, which the pure `ProcState` embedding
cannot express. -/
def hGet {α : Type} (h : List (List α)) (r : Nat) : List α := h.getD r []

/-- An external mutation through a reference: `arr.push(x)` on cell `r`. -/
def hPush {α : Type} (h : List (List α)) (r : Nat) (x : α) : List (List α) :=
  h.set r (hGet h r ++ [x])

/-- The collection-valued state of a `Process` with explicit array/object
identity: one heap per collection, plus the internal reference the instance
holds. -/
structure RefState where
  algHeap : List (List String)
  algRef : Nat
  finHeap : List (List String)
  finRef : Nat
  errHeap : List (List ErrRec)
  errRef : Nat
  curHeap : List (List (String × JsPrim))
  curRef : Option Nat
deriving Repr

/-- `getAlgorithms = () => [...this.algorithms]`: allocates a fresh array
holding a copy and returns the fresh reference. -/
def refGetAlgorithms (s : RefState) : RefState × Nat :=
  ({ s with algHeap := s.algHeap ++ [hGet s.algHeap s.algRef] }, s.algHeap.length)

/-- `getFinishedAlgorithms = () => [...this.finishedAlgorithms]`: fresh copy,
fresh reference. -/
def refGetFinishedAlgorithms (s : RefState) : RefState × Nat :=
  ({ s with finHeap := s.finHeap ++ [hGet s.finHeap s.finRef] }, s.finHeap.length)

/-- `getErrors = () => this.errors`: returns the internal array reference
itself, with no copy. -/
def refGetErrors (s : RefState) : RefState × Nat := (s, s.errRef)

/-- `getCurrentAlgorithm = () => ({ ...this.currentAlgorithm })`: allocates a
fresh object with the spread fields and returns the fresh reference. -/
def refGetCurrentAlgorithm (s : RefState) : RefState × Nat :=
  ({ s with
      curHeap := s.curHeap ++
        [match s.curRef with
         | some r => hGet s.curHeap r
         | none => []] },
   s.curHeap.length)

/-- A concrete run state for the observer-aliasing check: one requested
algorithm, no completed algorithm, no error yet, a current step record. -/
def refExample : RefState :=
  { algHeap := [["optipng"]]
    algRef := 0
    finHeap := [[]]
    finRef := 0
    errHeap := [[]]
    errRef := 0
    curHeap := [[("algorithm", JsPrim.pstr "optipng")]]
    curRef := some 0 }

/-- C9 evaluation at the failing input: pushing a record through the array
returned by `getErrors` mutates the run's internal error list (the claim's
"independent copy" fails for the error list), while the same external push
through the values returned by `getAlgorithms`, `getFinishedAlgorithms` and
`getCurrentAlgorithm` leaves the corresponding internal state unchanged. -/
theorem c9_geterrors_alias_bug :
    hGet (hPush (refGetErrors refExample).1.errHeap (refGetErrors refExample).2
        { algorithm := "optipng", message := "boom" }) refExample.errRef ≠
      hGet refExample.errHeap refExample.errRef ∧
    hGet (hPush (refGetAlgorithms refExample).1.algHeap
        (refGetAlgorithms refExample).2 "x") refExample.algRef =
      hGet refExample.algHeap refExample.algRef ∧
    hGet (hPush (refGetFinishedAlgorithms refExample).1.finHeap
        (refGetFinishedAlgorithms refExample).2 "x") refExample.finRef =
      hGet refExample.finHeap refExample.finRef ∧
    hGet (hPush (refGetCurrentAlgorithm refExample).1.curHeap
        (refGetCurrentAlgorithm refExample).2 ("index", JsPrim.pnum 0)) 0 =
      hGet refExample.curHeap 0 := by
  decide
